import Mathlib

/-!
Shallow embedding of `src/app.py` (splicer): a utility that scans a source
directory tree for audio files and copies new ones into a `staging` subfolder
of a destination directory.

The filesystem is modelled as an association list from paths (lists of
components) to entries (file with data, or directory).  Logging is modelled as
a list of events, each carrying the level the source uses for it.  Fallible
operations (`stat` on a missing path, `shutil.copy2` from a non-file) return
`Except`.
-/

/-- A path, as its list of components from the filesystem root. -/
abbrev FPath := List String

/-- The data of a regular file: its byte content plus the metadata that
`shutil.copy2` carries over (modification time and permission bits). -/
structure FileData where
  content : List Nat
  mtime : Nat
  mode : Nat
deriving DecidableEq, Repr

/-- `os.stat().st_size` of a regular file. -/
def FileData.size (d : FileData) : Nat := d.content.length

/-- A directory entry: a regular file with its data, or a directory. -/
inductive Entry where
  | file (data : FileData)
  | dir
deriving DecidableEq, Repr

/-- A filesystem: an association list from paths to entries; the first
binding of a path is its current entry. -/
abbrev FS := List (FPath × Entry)

/-- Current entry at a path, if any. -/
def lookupFS : FS → FPath → Option Entry
  | [], _ => none
  | (q, e) :: rest, p => if q = p then some e else lookupFS rest p

/-- `Path.exists()`: the path has an entry. -/
def existsFS (fs : FS) (p : FPath) : Bool := (lookupFS fs p).isSome

/-- `Path.is_file()`: the path's entry is a regular file. -/
def isFileFS (fs : FS) (p : FPath) : Bool :=
  match lookupFS fs p with
  | some (.file _) => true
  | _ => false

/-- `Path.stat().st_size`, defined on regular files only. -/
def statSize (fs : FS) (p : FPath) : Option Nat :=
  match lookupFS fs p with
  | some (.file d) => some d.size
  | _ => none

/-- Write an entry at a path, shadowing any previous entry there. -/
def insertFS (fs : FS) (p : FPath) (e : Entry) : FS := (p, e) :: fs

/-- All paths that currently have an entry (each once). -/
def allPaths (fs : FS) : List FPath := (fs.map Prod.fst).dedup

/-- `Path.name`: the last component of a path (empty for the root). -/
def lastName (p : FPath) : String := p.getLast?.getD ""

/-- `p` lies strictly below `root` (what `root.rglob("*")` enumerates). -/
def strictUnder (root p : FPath) : Bool := root.isPrefixOf p && !(root == p)

/-- The nonempty prefixes of a path: the chain of directories that
`mkdir(parents=True)` creates on the way down to the path itself. -/
def pathPrefixes (p : FPath) : List FPath :=
  (List.range p.length).map (fun i => p.take (i + 1))

/-- Create a directory at each listed path that has no entry yet, in order. -/
def mkdirList (fs : FS) : List FPath → FS
  | [] => fs
  | q :: rest => mkdirList (if existsFS fs q then fs else insertFS fs q .dir) rest

/-- `p.mkdir(parents=True, exist_ok=True)`: create the missing directories
along `p`. -/
def mkdirParents (fs : FS) (p : FPath) : FS := mkdirList fs (pathPrefixes p)

/-- The log messages `app.py` can emit, with the data they interpolate.
`overwriting` corresponds to line 78, which calls `log.info` (not
`log.warning`). -/
inductive LogEvent where
  | skippedFinal (name : String)
  | skippedStaging (name : String)
  | overwriting (name : String)
  | wouldCopy (name : String) (dest : FPath)
  | copied (name : String) (dest : FPath)
  | creatingFinalDir (dir : FPath)
  | errorMissingPaths
deriving DecidableEq, Repr

/-- Logging levels used by the program. -/
inductive LogLevel where
  | info
  | warning
  | error
deriving DecidableEq, Repr

/-- The level each message is emitted at in the source: `log.error` for the
missing-path report, `log.info` for everything else (including the
"Overwriting" message on line 78). -/
def LogEvent.level : LogEvent → LogLevel
  | .errorMissingPaths => .error
  | _ => .info

/-- The names of the regular files anywhere strictly under `root`: the key
set of `existing_files = {file.name: file for file in final_dir.rglob("*")
if file.is_file()}` (only the keys of this dict are ever consulted). -/
def fileNamesUnder (fs : FS) (root : FPath) : List String :=
  ((allPaths fs).filter (fun p => strictUnder root p && isFileFS fs p)).map lastName

/-- Outcome of processing one candidate: the next filesystem and log, or a
raised exception. -/
inductive StepRes where
  | next (fs : FS) (log : List LogEvent)
  | fail (e : String)
deriving Repr

/-- Lines 80-84 of `copy_files`: in dry-run, log the copy that would happen;
otherwise `shutil.copy2(file_path, destination_path)` (bytes and metadata,
failing if the source is not a regular file) followed by the `Copied` log. -/
def doCopy (dry : Bool) (fs : FS) (log : List LogEvent) (fp dst : FPath) : StepRes :=
  if dry then
    .next fs (log ++ [.wouldCopy (lastName fp) dst])
  else
    match lookupFS fs fp with
    | some (.file d) => .next (insertFS fs dst (.file d)) (log ++ [.copied (lastName fp) dst])
    | _ => .fail "copy2: source is not a regular file"

/-- The body of the `for file_path in file_list` loop of `copy_files`
(lines 59-84): skip when the name is a key of the destination index; else if
the staging path exists, compare sizes and either skip (equal) or log
`Overwriting` and fall through to the copy (different); else copy. -/
def copy_files_step (st : FPath) (ex : List String) (dry : Bool)
    (fs : FS) (log : List LogEvent) (fp : FPath) : StepRes :=
  let name := lastName fp
  let dst := st ++ [name]
  if name ∈ ex then
    .next fs (if dry then log ++ [.skippedFinal name] else log)
  else if existsFS fs dst then
    match statSize fs fp, statSize fs dst with
    | some ssz, some dsz =>
      if ssz = dsz then
        .next fs (if dry then log ++ [.skippedStaging name] else log)
      else
        doCopy dry fs (log ++ [.overwriting name]) fp dst
    | _, _ => .fail "stat failed"
  else
    doCopy dry fs log fp dst

/-- The `for` loop of `copy_files`, over the remaining candidates. -/
def copy_files_loop (st : FPath) (ex : List String) (dry : Bool) :
    List FPath → FS → List LogEvent → Except String (FS × List LogEvent)
  | [], fs, log => .ok (fs, log)
  | fp :: rest, fs, log =>
    match copy_files_step st ex dry fs log fp with
    | .next fs2 log2 => copy_files_loop st ex dry rest fs2 log2
    | .fail e => .error e

/-- `copy_files(file_list, final_dir, dryrun)` (lines 40-84): create the
staging directory unless dry-run, snapshot the destination index once, then
process the candidates in list order. -/
def copy_files (file_list : List FPath) (final_dir : FPath) (dryrun : Bool)
    (fs : FS) : Except String (FS × List LogEvent) :=
  let staging_dir := final_dir ++ ["staging"]
  let fs1 := if dryrun then fs else mkdirParents fs staging_dir
  let existing := fileNamesUnder fs1 final_dir
  copy_files_loop staging_dir existing dryrun file_list fs1 []

/-- `str.lower()` (the inputs compared are ASCII extensions). -/
def lowerStr (s : String) : String := String.mk (s.toList.map Char.toLower)

/-- `PurePath.suffix`: the final extension of a name, dot included; empty
when the only dot is leading or trailing or there is none. -/
def pySuffix (name : String) : String :=
  let cs := name.toList
  match cs.reverse.findIdx? (fun c => c == '.') with
  | none => ""
  | some j =>
    let i := cs.length - 1 - j
    if 0 < i ∧ i < cs.length - 1 then String.mk (cs.drop i) else ""

/-- The module-level allow-list `audio_extensions` (line 18). -/
def audio_extensions : List String := [".wav", ".mp3", ".aiff"]

/-- `get_audio_files(source, extensions)` (lines 21-37): every entry of
`source.rglob("*")` (files and directories alike; there is no `is_file`
check) whose suffix, lowercased, is in the lowercased extension set. -/
def get_audio_files (fs : FS) (source : FPath) (extensions : List String) :
    List FPath :=
  let extSet := extensions.map lowerStr
  (allPaths fs).filter
    (fun p => strictUnder source p &&
      decide (lowerStr (pySuffix (lastName p)) ∈ extSet))

/-- Python truthiness of `config.get(...)` for the path fields: `None` and
the empty string are falsy. -/
def isFalsy : Option String → Bool
  | none => true
  | some s => s.isEmpty

/-- `resolve_path` (lines 87-99) modelled on the already-non-None case:
`expanduser`/`resolve` depend on the environment, so a resolved string is
modelled as a single root-level path component. -/
def resolve_path (s : String) : FPath := [s]

/-- `main` (lines 169-186), from the point the configuration dictionary has
been loaded: the config-file creation and JSON loading (lines 155-167) are
interactive/file IO outside the model.  If either path is unset (Python
falsy), report an error and return early; otherwise create the final
directory when absent (regardless of dry-run), scan, and copy. -/
def main_run (splice : Option String) (final : Option String) (dryrun : Bool)
    (fs : FS) : Except String (FS × List LogEvent) :=
  if isFalsy splice || isFalsy final then
    .ok (fs, [.errorMissingPaths])
  else
    let splice_dir := resolve_path (splice.getD "")
    let final_dir := resolve_path (final.getD "")
    let fsLog :=
      if existsFS fs final_dir then (fs, ([] : List LogEvent))
      else (mkdirParents fs final_dir, [.creatingFinalDir final_dir])
    let files_to_copy := get_audio_files fsLog.1 splice_dir audio_extensions
    match copy_files files_to_copy final_dir dryrun fsLog.1 with
    | .ok (fs2, log2) => .ok (fs2, fsLog.2 ++ log2)
    | .error e => .error e

/-! ### Basic filesystem lemmas -/

/-- Looking up after a write: the written path sees the new entry, every
other path is unchanged. -/
theorem lookupFS_insertFS (fs : FS) (p q : FPath) (e : Entry) :
    lookupFS (insertFS fs p e) q = if p = q then some e else lookupFS fs q := rfl

/-- A freshly written file is a file. -/
theorem isFileFS_insertFS_self (fs : FS) (p : FPath) (d : FileData) :
    isFileFS (insertFS fs p (.file d)) p = true := by
  simp [isFileFS, lookupFS_insertFS]

/-- A path with an entry occurs among the association list's keys. -/
theorem mem_keys_of_isSome (fs : FS) (p : FPath)
    (h : (lookupFS fs p).isSome) : p ∈ fs.map Prod.fst := by
  induction fs with
  | nil => simp [lookupFS] at h
  | cons hd tl ih =>
    obtain ⟨q, e⟩ := hd
    by_cases hq : q = p
    · simp only [List.map_cons]
      exact List.mem_cons.mpr (Or.inl hq.symm)
    · simp only [lookupFS, if_neg hq] at h
      simp only [List.map_cons]
      exact List.mem_cons_of_mem _ (ih h)

/-- A path with an entry is listed by `allPaths`. -/
theorem mem_allPaths_of_isSome (fs : FS) (p : FPath)
    (h : (lookupFS fs p).isSome) : p ∈ allPaths fs := by
  unfold allPaths
  exact List.mem_dedup.mpr (mem_keys_of_isSome fs p h)

/-- A regular file's path has an entry. -/
theorem isSome_of_isFileFS (fs : FS) (p : FPath)
    (h : isFileFS fs p = true) : (lookupFS fs p).isSome := by
  unfold isFileFS at h
  cases hl : lookupFS fs p with
  | none => rw [hl] at h; simp at h
  | some e => simp

/-! ### mkdir(parents=True, exist_ok=True) lemmas -/

/-- Creating missing directories does not change any path that already has
an entry. -/
theorem lookupFS_mkdirList_of_isSome (l : List FPath) (fs : FS) (q : FPath)
    (h : (lookupFS fs q).isSome) : lookupFS (mkdirList fs l) q = lookupFS fs q := by
  induction l generalizing fs with
  | nil => rfl
  | cons r rest ih =>
    unfold mkdirList
    by_cases hr : existsFS fs r
    · rw [if_pos hr]; exact ih fs h
    · rw [if_neg hr]
      have hrq : r ≠ q := by
        intro heq
        rw [heq] at hr
        exact hr h
      have hstep : lookupFS (insertFS fs r Entry.dir) q = lookupFS fs q := by
        rw [lookupFS_insertFS, if_neg hrq]
      rw [ih (insertFS fs r Entry.dir) (by rw [hstep]; exact h), hstep]

/-- After creating the listed directories, each listed path has an entry. -/
theorem existsFS_mkdirList (l : List FPath) (fs : FS) (q : FPath) (h : q ∈ l) :
    existsFS (mkdirList fs l) q = true := by
  induction l generalizing fs with
  | nil => simp at h
  | cons r rest ih =>
    unfold mkdirList
    rcases List.mem_cons.mp h with hq | hq
    · subst hq
      by_cases hr : existsFS fs q
      · rw [if_pos hr]
        unfold existsFS
        rw [lookupFS_mkdirList_of_isSome rest fs q hr]
        exact hr
      · rw [if_neg hr]
        have hins : (lookupFS (insertFS fs q Entry.dir) q).isSome := by
          rw [lookupFS_insertFS, if_pos rfl]; simp
        unfold existsFS
        rw [lookupFS_mkdirList_of_isSome rest _ q hins]
        exact hins
    · split <;> exact ih _ hq

/-- If every listed path already has an entry, nothing is created. -/
theorem mkdirList_eq_self (l : List FPath) (fs : FS)
    (h : ∀ q ∈ l, existsFS fs q = true) : mkdirList fs l = fs := by
  induction l with
  | nil => rfl
  | cons r rest ih =>
    unfold mkdirList
    rw [if_pos (h r (List.mem_cons_self r rest))]
    exact ih fun q hq => h q (List.mem_cons_of_mem r hq)

/-- The only changes directory creation makes: a listed path that had no
entry now holds a directory. -/
theorem lookupFS_mkdirList_changed (l : List FPath) (fs : FS) (q : FPath)
    (h : lookupFS (mkdirList fs l) q ≠ lookupFS fs q) :
    q ∈ l ∧ lookupFS fs q = none ∧ lookupFS (mkdirList fs l) q = some Entry.dir := by
  induction l generalizing fs with
  | nil => exact absurd rfl h
  | cons r rest ih =>
    unfold mkdirList at h ⊢
    by_cases hr : existsFS fs r
    · rw [if_pos hr] at h ⊢
      obtain ⟨hmem, hnone, hdir⟩ := ih fs h
      exact ⟨List.mem_cons_of_mem r hmem, hnone, hdir⟩
    · rw [if_neg hr] at h ⊢
      set fs2 := insertFS fs r Entry.dir with hfs2
      by_cases hq2 : lookupFS fs2 q = lookupFS fs q
      · have h2 : lookupFS (mkdirList fs2 rest) q ≠ lookupFS fs2 q := by
          rw [hq2]; exact h
        obtain ⟨hmem, hnone, hdir⟩ := ih fs2 h2
        exact ⟨List.mem_cons_of_mem r hmem, hq2.symm.trans hnone, hdir⟩
      · have hrq : r = q := by
          by_contra hne
          exact hq2 (by rw [hfs2, lookupFS_insertFS, if_neg hne])
        subst hrq
        have hnone : lookupFS fs r = none := by
          unfold existsFS at hr
          cases hl : lookupFS fs r with
          | none => rfl
          | some e => rw [hl] at hr; simp at hr
        have hdir2 : lookupFS fs2 r = some Entry.dir := by
          rw [hfs2, lookupFS_insertFS, if_pos rfl]
        refine ⟨List.mem_cons_self r rest, hnone, ?_⟩
        rw [lookupFS_mkdirList_of_isSome rest fs2 r (by rw [hdir2]; simp), hdir2]

/-- Directory creation neither creates nor destroys regular files. -/
theorem isFileFS_mkdirList (l : List FPath) (fs : FS) (q : FPath) :
    isFileFS (mkdirList fs l) q = isFileFS fs q := by
  by_cases h : lookupFS (mkdirList fs l) q = lookupFS fs q
  · unfold isFileFS; rw [h]
  · obtain ⟨_, hnone, hdir⟩ := lookupFS_mkdirList_changed l fs q h
    unfold isFileFS
    rw [hnone, hdir]

/-! ### Destination-index membership -/

/-- A name is a key of the destination index exactly when some regular file
strictly under the root carries it. -/
theorem mem_fileNamesUnder (fs : FS) (root : FPath) (n : String) :
    n ∈ fileNamesUnder fs root ↔
      ∃ p, strictUnder root p = true ∧ isFileFS fs p = true ∧ lastName p = n := by
  unfold fileNamesUnder
  constructor
  · intro h
    obtain ⟨p, hp, hn⟩ := List.mem_map.mp h
    obtain ⟨hmem, hcond⟩ := List.mem_filter.mp hp
    simp only [Bool.and_eq_true] at hcond
    exact ⟨p, hcond.1, hcond.2, hn⟩
  · rintro ⟨p, h1, h2, h3⟩
    refine List.mem_map.mpr ⟨p, List.mem_filter.mpr ⟨?_, ?_⟩, h3⟩
    · exact mem_allPaths_of_isSome fs p (isSome_of_isFileFS fs p h2)
    · simp only [Bool.and_eq_true]
      exact ⟨h1, h2⟩

/-- Creating directories leaves the destination index's key set unchanged. -/
theorem mem_fileNamesUnder_mkdirList (l : List FPath) (fs : FS) (root : FPath)
    (n : String) :
    n ∈ fileNamesUnder (mkdirList fs l) root ↔ n ∈ fileNamesUnder fs root := by
  simp only [mem_fileNamesUnder, isFileFS_mkdirList]

/-! ### Path lemmas -/

/-- A list is a prefix of itself extended. -/
theorem isPrefixOf_append_self (root l : FPath) :
    root.isPrefixOf (root ++ l) = true := by
  exact List.isPrefixOf_iff_prefix.mpr ⟨l, rfl⟩

/-- Extending a path by a nonempty tail lands strictly under it. -/
theorem strictUnder_append (root l : FPath) (h : l ≠ []) :
    strictUnder root (root ++ l) = true := by
  unfold strictUnder
  rw [isPrefixOf_append_self]
  simp only [Bool.true_and, Bool.not_eq_true', beq_eq_false_iff_ne, ne_eq]
  intro he
  have hlen := congrArg List.length he
  simp only [List.length_append] at hlen
  exact h (List.eq_nil_of_length_eq_zero (by omega))

/-- The name of a path ending in a component is that component. -/
theorem lastName_concat (st : FPath) (n : String) : lastName (st ++ [n]) = n := by
  simp [lastName, List.getLast?_concat]

/-! ### Per-candidate step lemmas -/

/-- Every successful step either leaves the filesystem alone or, when the
candidate's name is not a key of the destination index, copies the
candidate's file record onto the staging path of its name. -/
theorem copy_files_step_shape (st : FPath) (ex : List String) (dry : Bool)
    (fs : FS) (log : List LogEvent) (fp : FPath) (fs2 : FS) (log2 : List LogEvent)
    (h : copy_files_step st ex dry fs log fp = .next fs2 log2) :
    fs2 = fs ∨
      (lastName fp ∉ ex ∧ ∃ d, lookupFS fs fp = some (.file d) ∧
        fs2 = insertFS fs (st ++ [lastName fp]) (.file d)) := by
  simp only [copy_files_step, doCopy] at h
  split at h
  · injection h with h1 _; exact Or.inl h1.symm
  next hex =>
    split at h
    · split at h
      next hs hd =>
        split at h
        · injection h with h1 _; exact Or.inl h1.symm
        · split at h
          · injection h with h1 _; exact Or.inl h1.symm
          · split at h
            next d hfp => injection h with h1 _; exact Or.inr ⟨hex, d, hfp, h1.symm⟩
            next hfp => simp at h
      next hs => simp at h
    · split at h
      · injection h with h1 _; exact Or.inl h1.symm
      · split at h
        next d hfp => injection h with h1 _; exact Or.inr ⟨hex, d, hfp, h1.symm⟩
        next hfp => simp at h

/-- A step never turns a regular file into anything else. -/
theorem copy_files_step_isFile_preserve (st : FPath) (ex : List String)
    (dry : Bool) (fs : FS) (log : List LogEvent) (fp : FPath) (fs2 : FS)
    (log2 : List LogEvent)
    (h : copy_files_step st ex dry fs log fp = .next fs2 log2) (q : FPath)
    (hq : isFileFS fs q = true) : isFileFS fs2 q = true := by
  rcases copy_files_step_shape st ex dry fs log fp fs2 log2 h with h1 | ⟨_, d, _, h2⟩
  · rw [h1]; exact hq
  · subst h2
    by_cases hdst : st ++ [lastName fp] = q
    · rw [← hdst]
      exact isFileFS_insertFS_self fs (st ++ [lastName fp]) d
    · unfold isFileFS
      rw [lookupFS_insertFS, if_neg hdst]
      exact hq

/-- A step never removes an entry. -/
theorem copy_files_step_isSome_preserve (st : FPath) (ex : List String)
    (dry : Bool) (fs : FS) (log : List LogEvent) (fp : FPath) (fs2 : FS)
    (log2 : List LogEvent)
    (h : copy_files_step st ex dry fs log fp = .next fs2 log2) (q : FPath)
    (hq : (lookupFS fs q).isSome) : (lookupFS fs2 q).isSome := by
  rcases copy_files_step_shape st ex dry fs log fp fs2 log2 h with h1 | ⟨_, d, _, h2⟩
  · rw [h1]; exact hq
  · subst h2
    rw [lookupFS_insertFS]
    by_cases hdst : st ++ [lastName fp] = q
    · rw [if_pos hdst]; simp
    · rw [if_neg hdst]; exact hq

/-- A candidate whose name is a key of the destination index is skipped:
the filesystem is unchanged and the informational skip message appears only
in dry-run mode (in a real run nothing is logged). -/
theorem copy_files_step_skip (st : FPath) (ex : List String) (dry : Bool)
    (fs : FS) (log : List LogEvent) (fp : FPath) (hex : lastName fp ∈ ex) :
    copy_files_step st ex dry fs log fp =
      .next fs (if dry then log ++ [.skippedFinal (lastName fp)] else log) := by
  simp only [copy_files_step]
  rw [if_pos hex]

/-- After a successful real (non-dry) step, the candidate's name was a key
of the index, or its staging path now holds a regular file. -/
theorem copy_files_step_coverage (st : FPath) (ex : List String) (fs : FS)
    (log : List LogEvent) (fp : FPath) (fs2 : FS) (log2 : List LogEvent)
    (h : copy_files_step st ex false fs log fp = .next fs2 log2) :
    lastName fp ∈ ex ∨ isFileFS fs2 (st ++ [lastName fp]) = true := by
  simp only [copy_files_step, doCopy] at h
  split at h
  next hex => exact Or.inl hex
  next hex =>
    split at h
    next hexists =>
      split at h
      next hs hd =>
        split at h
        · injection h with h1 _
          refine Or.inr ?_
          rw [← h1]
          unfold statSize at hd
          unfold isFileFS
          cases hl : lookupFS fs (st ++ [lastName fp]) with
          | none => rw [hl] at hd; simp at hd
          | some e =>
            cases e with
            | file d => rfl
            | dir => rw [hl] at hd; simp at hd
        · split at h
          next hdry => simp at hdry
          next =>
            split at h
            next d hfp =>
              injection h with h1 _
              subst h1
              exact Or.inr (isFileFS_insertFS_self fs (st ++ [lastName fp]) d)
            next => simp at h
      next => simp at h
    next hexists =>
      split at h
      next hdry => simp at hdry
      next =>
        split at h
        next d hfp =>
          injection h with h1 _
          subst h1
          exact Or.inr (isFileFS_insertFS_self fs (st ++ [lastName fp]) d)
        next => simp at h

/-- A step never logs a `Copied` event for a name that is a key of the
destination index: any such event in the step's output log was already
there. -/
theorem copy_files_step_copied_mono (st : FPath) (ex : List String)
    (dry : Bool) (fs : FS) (log : List LogEvent) (fp : FPath) (fs2 : FS)
    (log2 : List LogEvent)
    (h : copy_files_step st ex dry fs log fp = .next fs2 log2)
    (n : String) (dp : FPath) (hex : n ∈ ex)
    (hmem : LogEvent.copied n dp ∈ log2) : LogEvent.copied n dp ∈ log := by
  simp only [copy_files_step, doCopy] at h
  split at h
  next hskip =>
    injection h with _ h2
    subst h2
    split at hmem
    · rcases List.mem_append.mp hmem with hm | hm
      · exact hm
      · simp at hm
    · exact hmem
  next hskip =>
    split at h
    next hexists =>
      split at h
      next hs hd =>
        split at h
        · injection h with _ h2
          subst h2
          split at hmem
          · rcases List.mem_append.mp hmem with hm | hm
            · exact hm
            · simp at hm
          · exact hmem
        · split at h
          next hdry =>
            injection h with _ h2
            subst h2
            rcases List.mem_append.mp hmem with hm | hm
            · rcases List.mem_append.mp hm with hm2 | hm2
              · exact hm2
              · simp at hm2
            · simp at hm
          next hdry =>
            split at h
            next d hfp =>
              injection h with _ h2
              subst h2
              rcases List.mem_append.mp hmem with hm | hm
              · rcases List.mem_append.mp hm with hm2 | hm2
                · exact hm2
                · simp at hm2
              · have heq := List.mem_singleton.mp hm
                rw [LogEvent.copied.injEq] at heq
                exact absurd (heq.1 ▸ hex) hskip
            next => simp at h
      next => simp at h
    next hexists =>
      split at h
      next hdry =>
        injection h with _ h2
        subst h2
        rcases List.mem_append.mp hmem with hm | hm
        · exact hm
        · simp at hm
      next hdry =>
        split at h
        next d hfp =>
          injection h with _ h2
          subst h2
          rcases List.mem_append.mp hmem with hm | hm
          · exact hm
          · have heq := List.mem_singleton.mp hm
            rw [LogEvent.copied.injEq] at heq
            exact absurd (heq.1 ▸ hex) hskip
        next => simp at h

/-- In dry-run mode a step never changes the filesystem. -/
theorem copy_files_step_dry (st : FPath) (ex : List String) (fs : FS)
    (log : List LogEvent) (fp : FPath) (fs2 : FS) (log2 : List LogEvent)
    (h : copy_files_step st ex true fs log fp = .next fs2 log2) : fs2 = fs := by
  simp only [copy_files_step, doCopy] at h
  split at h
  · injection h with h1 _; exact h1.symm
  · split at h
    · split at h
      next hs hd =>
        split at h
        · injection h with h1 _; exact h1.symm
        · split at h
          · injection h with h1 _; exact h1.symm
          next hdry => exact absurd trivial hdry
      next => simp at h
    · split at h
      · injection h with h1 _; exact h1.symm
      next hdry => exact absurd trivial hdry

/-! ### Loop lemmas -/

/-- In dry-run mode the whole loop never changes the filesystem. -/
theorem copy_files_loop_dry (st : FPath) (ex : List String) (L : List FPath)
    (fs : FS) (log : List LogEvent) (fs1 : FS) (log1 : List LogEvent)
    (h : copy_files_loop st ex true L fs log = .ok (fs1, log1)) : fs1 = fs := by
  induction L generalizing fs log with
  | nil =>
    simp only [copy_files_loop] at h
    injection h with h2
    injection h2 with ha _
    exact ha.symm
  | cons fp rest ih =>
    simp only [copy_files_loop] at h
    split at h
    next fs2 log2 hstep =>
      rw [ih fs2 log2 h]
      exact copy_files_step_dry st ex fs log fp fs2 log2 hstep
    next e hstep => simp at h

/-- The loop never turns a regular file into anything else. -/
theorem copy_files_loop_isFile_preserve (st : FPath) (ex : List String)
    (dry : Bool) (L : List FPath) (fs : FS) (log : List LogEvent) (fs1 : FS)
    (log1 : List LogEvent)
    (h : copy_files_loop st ex dry L fs log = .ok (fs1, log1)) (q : FPath)
    (hq : isFileFS fs q = true) : isFileFS fs1 q = true := by
  induction L generalizing fs log with
  | nil =>
    simp only [copy_files_loop] at h
    injection h with h2
    injection h2 with ha _
    rw [← ha]
    exact hq
  | cons fp rest ih =>
    simp only [copy_files_loop] at h
    split at h
    next fs2 log2 hstep =>
      exact ih fs2 log2 h
        (copy_files_step_isFile_preserve st ex dry fs log fp fs2 log2 hstep q hq)
    next e hstep => simp at h

/-- The loop never removes an entry. -/
theorem copy_files_loop_isSome_preserve (st : FPath) (ex : List String)
    (dry : Bool) (L : List FPath) (fs : FS) (log : List LogEvent) (fs1 : FS)
    (log1 : List LogEvent)
    (h : copy_files_loop st ex dry L fs log = .ok (fs1, log1)) (q : FPath)
    (hq : (lookupFS fs q).isSome) : (lookupFS fs1 q).isSome := by
  induction L generalizing fs log with
  | nil =>
    simp only [copy_files_loop] at h
    injection h with h2
    injection h2 with ha _
    rw [← ha]
    exact hq
  | cons fp rest ih =>
    simp only [copy_files_loop] at h
    split at h
    next fs2 log2 hstep =>
      exact ih fs2 log2 h
        (copy_files_step_isSome_preserve st ex dry fs log fp fs2 log2 hstep q hq)
    next e hstep => simp at h

/-- Frame property of the loop: any path whose entry changed is the staging
path of some candidate whose name was not a key of the index, and it ends up
holding a regular file. -/
theorem copy_files_loop_frame (st : FPath) (ex : List String) (dry : Bool)
    (L : List FPath) (fs : FS) (log : List LogEvent) (fs1 : FS)
    (log1 : List LogEvent)
    (h : copy_files_loop st ex dry L fs log = .ok (fs1, log1)) (q : FPath)
    (hq : lookupFS fs1 q ≠ lookupFS fs q) :
    ∃ fp ∈ L, lastName fp ∉ ex ∧ q = st ++ [lastName fp] ∧ isFileFS fs1 q = true := by
  induction L generalizing fs log with
  | nil =>
    simp only [copy_files_loop] at h
    injection h with h2
    injection h2 with ha _
    rw [ha] at hq
    exact absurd rfl hq
  | cons fp rest ih =>
    simp only [copy_files_loop] at h
    split at h
    next fs2 log2 hstep =>
      by_cases hq2 : lookupFS fs2 q = lookupFS fs q
      · have hq1 : lookupFS fs1 q ≠ lookupFS fs2 q := by rw [hq2]; exact hq
        obtain ⟨fp2, hmem, hnx, heq, hfile⟩ := ih fs2 log2 h hq1
        exact ⟨fp2, List.mem_cons_of_mem fp hmem, hnx, heq, hfile⟩
      · rcases copy_files_step_shape st ex dry fs log fp fs2 log2 hstep with h1 | ⟨hnx, d, _, h2⟩
        · rw [h1] at hq2; exact absurd rfl hq2
        · have hqdst : q = st ++ [lastName fp] := by
            by_contra hne
            apply hq2
            rw [h2, lookupFS_insertFS, if_neg (fun he => hne he.symm)]
          have hfile2 : isFileFS fs2 q = true := by
            rw [hqdst, h2]
            exact isFileFS_insertFS_self fs (st ++ [lastName fp]) d
          exact ⟨fp, List.mem_cons_self fp rest, hnx, hqdst,
            copy_files_loop_isFile_preserve st ex dry rest fs2 log2 fs1 log1 h q hfile2⟩
    next e hstep => simp at h

/-- After a successful real run of the loop, every candidate's name was a
key of the index or its staging path holds a regular file. -/
theorem copy_files_loop_coverage (st : FPath) (ex : List String)
    (L : List FPath) (fs : FS) (log : List LogEvent) (fs1 : FS)
    (log1 : List LogEvent)
    (h : copy_files_loop st ex false L fs log = .ok (fs1, log1)) :
    ∀ fp ∈ L, lastName fp ∈ ex ∨ isFileFS fs1 (st ++ [lastName fp]) = true := by
  induction L generalizing fs log with
  | nil => intro fp hfp; simp at hfp
  | cons fp0 rest ih =>
    intro fp hfp
    simp only [copy_files_loop] at h
    split at h
    next fs2 log2 hstep =>
      rcases List.mem_cons.mp hfp with hfp1 | hfp2
      · subst hfp1
        rcases copy_files_step_coverage st ex fs log fp fs2 log2 hstep with hc | hc
        · exact Or.inl hc
        · exact Or.inr (copy_files_loop_isFile_preserve st ex false rest fs2 log2
            fs1 log1 h _ hc)
      · exact ih fs2 log2 h fp hfp2
    next e hstep => simp at h

/-- When every candidate's name is a key of the index, a real run of the
loop does nothing: filesystem and log come back unchanged. -/
theorem copy_files_loop_skip_all (st : FPath) (ex : List String)
    (L : List FPath) (fs : FS) (log : List LogEvent)
    (h : ∀ fp ∈ L, lastName fp ∈ ex) :
    copy_files_loop st ex false L fs log = .ok (fs, log) := by
  induction L with
  | nil => rfl
  | cons fp rest ih =>
    simp only [copy_files_loop]
    rw [copy_files_step_skip st ex false fs log fp (h fp (List.mem_cons_self fp rest))]
    simp only [Bool.false_eq_true, if_false]
    exact ih fun fp2 hm => h fp2 (List.mem_cons_of_mem fp hm)

/-- The loop never logs a `Copied` event for a name that is a key of the
index. -/
theorem copy_files_loop_copied_mono (st : FPath) (ex : List String)
    (dry : Bool) (L : List FPath) (fs : FS) (log : List LogEvent) (fs1 : FS)
    (log1 : List LogEvent)
    (h : copy_files_loop st ex dry L fs log = .ok (fs1, log1))
    (n : String) (dp : FPath) (hex : n ∈ ex)
    (hmem : LogEvent.copied n dp ∈ log1) : LogEvent.copied n dp ∈ log := by
  induction L generalizing fs log with
  | nil =>
    simp only [copy_files_loop] at h
    injection h with h2
    injection h2 with _ hb
    rw [hb]
    exact hmem
  | cons fp rest ih =>
    simp only [copy_files_loop] at h
    split at h
    next fs2 log2 hstep =>
      exact copy_files_step_copied_mono st ex dry fs log fp fs2 log2 hstep n dp hex
        (ih fs2 log2 h)
    next e hstep => simp at h

/-! ### Glue lemmas -/

/-- Unfolding of `copy_files` in dry-run mode. -/
theorem copy_files_dry_def (L : List FPath) (fd : FPath) (fs : FS) :
    copy_files L fd true fs =
      copy_files_loop (fd ++ ["staging"]) (fileNamesUnder fs fd) true L fs [] := rfl

/-- Unfolding of `copy_files` in a real run. -/
theorem copy_files_real_def (L : List FPath) (fd : FPath) (fs : FS) :
    copy_files L fd false fs =
      copy_files_loop (fd ++ ["staging"])
        (fileNamesUnder (mkdirParents fs (fd ++ ["staging"])) fd) false L
        (mkdirParents fs (fd ++ ["staging"])) [] := rfl

/-- A path longer than `p` is not among `p`'s prefixes. -/
theorem not_mem_pathPrefixes_of_longer (p q : FPath) (h : p.length < q.length) :
    q ∉ pathPrefixes p := by
  intro hmem
  unfold pathPrefixes at hmem
  obtain ⟨i, _, he⟩ := List.mem_map.mp hmem
  have hlen : q.length ≤ p.length := by
    rw [← he, List.length_take]
    omega
  omega

/-- Directory creation along `p` does not touch paths outside `p`'s chain. -/
theorem lookupFS_mkdirList_not_mem (l : List FPath) (fs : FS) (q : FPath)
    (h : q ∉ l) : lookupFS (mkdirList fs l) q = lookupFS fs q := by
  by_cases hc : lookupFS (mkdirList fs l) q = lookupFS fs q
  · exact hc
  · obtain ⟨hmem, _, _⟩ := lookupFS_mkdirList_changed l fs q hc
    exact absurd hmem h

/-- `mkdir(parents=True)` of `p` does not touch paths longer than `p`. -/
theorem lookupFS_mkdirParents_longer (fs : FS) (p q : FPath)
    (h : p.length < q.length) : lookupFS (mkdirParents fs p) q = lookupFS fs q :=
  lookupFS_mkdirList_not_mem _ fs q (not_mem_pathPrefixes_of_longer p q h)

/-- `mkdir(parents=True)` does not change any path that already has an
entry. -/
theorem lookupFS_mkdirParents_of_isSome (fs : FS) (pp q : FPath)
    (h : (lookupFS fs q).isSome) : lookupFS (mkdirParents fs pp) q = lookupFS fs q :=
  lookupFS_mkdirList_of_isSome _ fs q h

/-- Membership in the Scanner's output, for any extension list. -/
theorem mem_get_audio_files (fs : FS) (source p : FPath) (exts : List String) :
    p ∈ get_audio_files fs source exts ↔
      p ∈ allPaths fs ∧ strictUnder source p = true ∧
        lowerStr (pySuffix (lastName p)) ∈ exts.map lowerStr := by
  unfold get_audio_files
  rw [List.mem_filter]
  constructor
  · rintro ⟨h1, h2⟩
    simp only [Bool.and_eq_true, decide_eq_true_eq] at h2
    exact ⟨h1, h2.1, h2.2⟩
  · rintro ⟨h1, h2, h3⟩
    refine ⟨h1, ?_⟩
    simp only [Bool.and_eq_true, decide_eq_true_eq]
    exact ⟨h2, h3⟩

/-- A candidate whose name is a key of the destination index is skipped by
a real single-candidate run: only the staging `mkdir` happens, nothing is
logged. -/
theorem copy_files_skip_one (p : FPath) (final_dir : FPath) (fs : FS)
    (hdup : lastName p ∈ fileNamesUnder fs final_dir) :
    copy_files [p] final_dir false fs =
      .ok (mkdirParents fs (final_dir ++ ["staging"]), []) := by
  rw [copy_files_real_def]
  apply copy_files_loop_skip_all
  intro fp hfp
  rw [List.mem_singleton] at hfp
  subst hfp
  unfold mkdirParents
  rw [mem_fileNamesUnder_mkdirList]
  exact hdup

/-! ### Claim C3 -/

/-- **C3 counterexample**: the claim says the Scanner's output contains only
files; but `get_audio_files` uses `source.rglob("*")` with no `is_file()`
check, so a *directory* named `kit.wav` is returned. -/
theorem C3_counterexample :
    get_audio_files [(["src"], Entry.dir), (["src", "kit.wav"], Entry.dir)]
        ["src"] audio_extensions = [["src", "kit.wav"]] ∧
    isFileFS [(["src"], Entry.dir), (["src", "kit.wav"], Entry.dir)]
        ["src", "kit.wav"] = false := ⟨rfl, rfl⟩

/-- **C3 (amended)**: the Scanner's output contains exactly the entries
(files *or directories*) at any depth strictly under the root whose
extension, lowercased, is one of `.wav`, `.mp3`, `.aiff`; there is no
is-file restriction. -/
theorem C3_scanner_membership (fs : FS) (source p : FPath) :
    p ∈ get_audio_files fs source audio_extensions ↔
      p ∈ allPaths fs ∧ strictUnder source p = true ∧
        lowerStr (pySuffix (lastName p)) ∈ [".wav", ".mp3", ".aiff"] := by
  rw [mem_get_audio_files]
  have hmap : audio_extensions.map lowerStr = [".wav", ".mp3", ".aiff"] := by decide
  rw [hmap]

/-! ### Claim C8 -/

/-- **C8**: if after loading the configuration either path is unset (Python
falsy), `main` reports an error-level message and returns early with the
filesystem untouched — no destination creation, no scan, no copy — and the
return is an ordinary value, not a raised condition. -/
theorem C8_missing_paths (splice final : Option String) (dry : Bool) (fs : FS)
    (h : isFalsy splice = true ∨ isFalsy final = true) :
    main_run splice final dry fs = .ok (fs, [LogEvent.errorMissingPaths]) ∧
    LogEvent.errorMissingPaths.level = LogLevel.error := by
  refine ⟨?_, rfl⟩
  unfold main_run
  rcases h with h | h <;> rw [h] <;> simp

/-- Witness for C8 at a concrete unset source path. -/
theorem C8_missing_paths_witness :
    main_run none (some "dest") false [(["dest"], Entry.dir)] =
      .ok ([(["dest"], Entry.dir)], [LogEvent.errorMissingPaths]) ∧
    LogEvent.errorMissingPaths.level = LogLevel.error :=
  C8_missing_paths none (some "dest") false [(["dest"], Entry.dir)] (Or.inl rfl)

/-! ### Claim C1 -/

/-- **C1 counterexample**: with the dry-run flag set and the destination
absent, the program still creates the destination directory (`main`,
src/app.py lines 181-183, runs regardless of the flag), contradicting "never
creates the destination directory". -/
theorem C1_counterexample :
    main_run (some "src") (some "dst") true [(["src"], Entry.dir)] =
      .ok ([(["dst"], Entry.dir), (["src"], Entry.dir)],
        [LogEvent.creatingFinalDir ["dst"]]) ∧
    existsFS [(["src"], Entry.dir)] ["dst"] = false ∧
    existsFS [(["dst"], Entry.dir), (["src"], Entry.dir)] ["dst"] = true :=
  ⟨rfl, rfl, rfl⟩

/-- **C1 (amended)**: `copy_files` itself performs no filesystem mutation in
dry-run mode — no staging creation and no file write; only `main`'s
destination-root creation escapes the flag. -/
theorem C1_dryrun_no_mutation (file_list : List FPath) (final_dir : FPath)
    (fs fs1 : FS) (log : List LogEvent)
    (h : copy_files file_list final_dir true fs = .ok (fs1, log)) : fs1 = fs := by
  rw [copy_files_dry_def] at h
  exact copy_files_loop_dry _ _ file_list fs [] fs1 log h

/-- Witness for the amended C1 on a concrete dry run that would copy. -/
theorem C1_dryrun_no_mutation_witness :
    copy_files [["s", "a.wav"]] ["d"] true
        [(["s", "a.wav"], Entry.file ⟨[1], 2, 3⟩)] =
      .ok ([(["s", "a.wav"], Entry.file ⟨[1], 2, 3⟩)],
        [LogEvent.wouldCopy "a.wav" ["d", "staging", "a.wav"]]) ∧
    ([(["s", "a.wav"], Entry.file ⟨[1], 2, 3⟩)] : FS) =
      [(["s", "a.wav"], Entry.file ⟨[1], 2, 3⟩)] :=
  ⟨rfl, C1_dryrun_no_mutation [["s", "a.wav"]] ["d"] _ _ _ rfl⟩

/-! ### Claim C2 -/

/-- **C2 counterexample**: a file that exists *only in staging* with a size
different from the candidate (3 bytes vs 5 bytes).  The claim says it is
overwritten with a warning; but staging lies inside `final_dir`, so its files
are keys of `existing_files`, and the candidate is skipped by the name check:
the run changes nothing and logs nothing at all. -/
theorem C2_counterexample :
    copy_files [["src", "a.wav"]] ["final"] false
        [(["final"], Entry.dir), (["final", "staging"], Entry.dir),
         (["final", "staging", "a.wav"], Entry.file ⟨[0, 0, 0], 0, 0⟩),
         (["src", "a.wav"], Entry.file ⟨[1, 2, 3, 4, 5], 5, 5⟩)] =
      .ok ([(["final"], Entry.dir), (["final", "staging"], Entry.dir),
            (["final", "staging", "a.wav"], Entry.file ⟨[0, 0, 0], 0, 0⟩),
            (["src", "a.wav"], Entry.file ⟨[1, 2, 3, 4, 5], 5, 5⟩)], []) ∧
    statSize [(["final"], Entry.dir), (["final", "staging"], Entry.dir),
         (["final", "staging", "a.wav"], Entry.file ⟨[0, 0, 0], 0, 0⟩),
         (["src", "a.wav"], Entry.file ⟨[1, 2, 3, 4, 5], 5, 5⟩)]
        ["src", "a.wav"] = some 5 ∧
    statSize [(["final"], Entry.dir), (["final", "staging"], Entry.dir),
         (["final", "staging", "a.wav"], Entry.file ⟨[0, 0, 0], 0, 0⟩),
         (["src", "a.wav"], Entry.file ⟨[1, 2, 3, 4, 5], 5, 5⟩)]
        ["final", "staging", "a.wav"] = some 3 := ⟨rfl, rfl, rfl⟩

/-- **C2 (amended)**: a candidate whose name matches a file already in the
staging subfolder is skipped by the destination-index name check regardless
of size (equal or different), with no log entry and no copy; the in-loop
size comparison only ever applies to staging files that appear after the
index snapshot. -/
theorem C2_staging_name_skipped (p : FPath) (final_dir : FPath) (fs : FS)
    (h : isFileFS fs (final_dir ++ ["staging"] ++ [lastName p]) = true) :
    copy_files [p] final_dir false fs =
      .ok (mkdirParents fs (final_dir ++ ["staging"]), []) := by
  apply copy_files_skip_one
  rw [mem_fileNamesUnder]
  refine ⟨final_dir ++ ["staging"] ++ [lastName p], ?_, h, lastName_concat _ _⟩
  rw [List.append_assoc]
  exact strictUnder_append final_dir _ (by simp)

/-- Witness for the amended C2: an equal-size staging duplicate is skipped
with no log. -/
theorem C2_staging_name_skipped_witness :
    copy_files [["src", "b.wav"]] ["final"] false
        [(["final"], Entry.dir), (["final", "staging"], Entry.dir),
         (["final", "staging", "b.wav"], Entry.file ⟨[7, 7], 1, 1⟩),
         (["src", "b.wav"], Entry.file ⟨[8, 8], 2, 2⟩)] =
      .ok (mkdirParents
            [(["final"], Entry.dir), (["final", "staging"], Entry.dir),
             (["final", "staging", "b.wav"], Entry.file ⟨[7, 7], 1, 1⟩),
             (["src", "b.wav"], Entry.file ⟨[8, 8], 2, 2⟩)]
            (["final"] ++ ["staging"]), []) :=
  C2_staging_name_skipped ["src", "b.wav"] ["final"]
    [(["final"], Entry.dir), (["final", "staging"], Entry.dir),
     (["final", "staging", "b.wav"], Entry.file ⟨[7, 7], 1, 1⟩),
     (["src", "b.wav"], Entry.file ⟨[8, 8], 2, 2⟩)] rfl

/-! ### Claim C4 -/

/-- **C4**: a candidate whose name is carried by a file already present in
the destination tree outside staging is never copied into staging, even with
a different size: the staging path of that name keeps its original entry for
the entire run and no `Copied` event for the name is ever logged. -/
theorem C4_existing_name_never_copied (file_list : List FPath)
    (final_dir : FPath) (fs fs1 : FS) (log : List LogEvent) (q : FPath)
    (n : String)
    (hq : isFileFS fs q = true) (hu : strictUnder final_dir q = true)
    (_hout : strictUnder (final_dir ++ ["staging"]) q = false)
    (hn : lastName q = n)
    (h : copy_files file_list final_dir false fs = .ok (fs1, log)) :
    lookupFS fs1 (final_dir ++ ["staging"] ++ [n]) =
      lookupFS fs (final_dir ++ ["staging"] ++ [n]) ∧
    ∀ dp, LogEvent.copied n dp ∉ log := by
  rw [copy_files_real_def] at h
  have hex : n ∈ fileNamesUnder (mkdirParents fs (final_dir ++ ["staging"])) final_dir := by
    unfold mkdirParents
    rw [mem_fileNamesUnder_mkdirList, mem_fileNamesUnder]
    exact ⟨q, hu, hq, hn⟩
  constructor
  · by_cases hc : lookupFS fs1 (final_dir ++ ["staging"] ++ [n]) =
        lookupFS (mkdirParents fs (final_dir ++ ["staging"])) (final_dir ++ ["staging"] ++ [n])
    · rw [hc]
      apply lookupFS_mkdirParents_longer
      simp
    · obtain ⟨fp, _, hnx, heq, _⟩ :=
        copy_files_loop_frame _ _ false file_list _ [] fs1 log h _ hc
      have hfpn : lastName fp = n := by
        have h2 := congrArg lastName heq
        rw [lastName_concat, lastName_concat] at h2
        exact h2.symm
      exact absurd (hfpn ▸ hex) hnx
  · intro dp hmem
    have h3 := copy_files_loop_copied_mono _ _ false file_list _ [] fs1 log h n dp hex hmem
    simp at h3

/-- Witness for C4: `x.wav` lives outside staging with size 2; the size-3
candidate is not copied and nothing is logged. -/
theorem C4_existing_name_never_copied_witness :
    lookupFS [(["final", "staging"], Entry.dir), (["final"], Entry.dir),
        (["final", "x.wav"], Entry.file ⟨[1, 2], 0, 0⟩),
        (["src", "x.wav"], Entry.file ⟨[1, 2, 3], 0, 0⟩)]
      (["final"] ++ ["staging"] ++ ["x.wav"]) =
    lookupFS [(["final"], Entry.dir),
        (["final", "x.wav"], Entry.file ⟨[1, 2], 0, 0⟩),
        (["src", "x.wav"], Entry.file ⟨[1, 2, 3], 0, 0⟩)]
      (["final"] ++ ["staging"] ++ ["x.wav"]) ∧
    LogEvent.copied "x.wav" ["final", "staging", "x.wav"] ∉ ([] : List LogEvent) :=
  ⟨(C4_existing_name_never_copied [["src", "x.wav"]] ["final"]
      [(["final"], Entry.dir),
       (["final", "x.wav"], Entry.file ⟨[1, 2], 0, 0⟩),
       (["src", "x.wav"], Entry.file ⟨[1, 2, 3], 0, 0⟩)] _ []
      ["final", "x.wav"] "x.wav" rfl rfl rfl rfl rfl).1,
   (C4_existing_name_never_copied [["src", "x.wav"]] ["final"]
      [(["final"], Entry.dir),
       (["final", "x.wav"], Entry.file ⟨[1, 2], 0, 0⟩),
       (["src", "x.wav"], Entry.file ⟨[1, 2, 3], 0, 0⟩)] _ []
      ["final", "x.wav"] "x.wav" rfl rfl rfl rfl rfl).2
     ["final", "staging", "x.wav"]⟩

/-! ### Claim C6 -/

/-- **C6 counterexample**: in a real (non-dry-run) execution a duplicate is
skipped *silently* — the informational skip message of line 64 sits under
`if dryrun`, so the run's log is empty, refuting "emits an informational log
entry ... including in non-dry-run mode". -/
theorem C6_counterexample :
    copy_files [["sp", "kick.wav"]] ["final"] false
        [(["final"], Entry.dir),
         (["final", "kick.wav"], Entry.file ⟨[1], 0, 0⟩),
         (["sp", "kick.wav"], Entry.file ⟨[1, 2], 0, 0⟩)] =
      .ok ([(["final", "staging"], Entry.dir), (["final"], Entry.dir),
            (["final", "kick.wav"], Entry.file ⟨[1], 0, 0⟩),
            (["sp", "kick.wav"], Entry.file ⟨[1, 2], 0, 0⟩)], []) := rfl

/-- **C6 (amended)**: duplicates are logged informationally only in dry-run
mode and skipped silently in a real run; and when the loop meets a staging
file of the candidate's name that is missing from the (once-computed, stale)
index with a different size, it logs the `Overwriting` notice — which is
informational, not warning-level — and proceeds with the copy. -/
theorem C6_log_behavior (p : FPath) (final_dir : FPath) (fs : FS) :
    (lastName p ∈ fileNamesUnder fs final_dir →
      copy_files [p] final_dir true fs =
        .ok (fs, [LogEvent.skippedFinal (lastName p)]) ∧
      copy_files [p] final_dir false fs =
        .ok (mkdirParents fs (final_dir ++ ["staging"]), []) ∧
      (LogEvent.skippedFinal (lastName p)).level = LogLevel.info) ∧
    (∀ (ex : List String) (log : List LogEvent) (d : FileData) (dsz : Nat),
      lastName p ∉ ex →
      lookupFS fs p = some (.file d) →
      statSize fs (final_dir ++ ["staging"] ++ [lastName p]) = some dsz →
      d.size ≠ dsz →
      copy_files_step (final_dir ++ ["staging"]) ex false fs log p =
        .next (insertFS fs (final_dir ++ ["staging"] ++ [lastName p]) (.file d))
          (log ++ [LogEvent.overwriting (lastName p),
                   LogEvent.copied (lastName p)
                     (final_dir ++ ["staging"] ++ [lastName p])]) ∧
      (LogEvent.overwriting (lastName p)).level = LogLevel.info ∧
      (LogEvent.overwriting (lastName p)).level ≠ LogLevel.warning) := by
  constructor
  · intro hdup
    refine ⟨?_, copy_files_skip_one p final_dir fs hdup, rfl⟩
    rw [copy_files_dry_def]
    simp only [copy_files_loop]
    rw [copy_files_step_skip _ _ true fs [] p hdup]
    rfl
  · intro ex log d dsz hnx hlp hst hne
    refine ⟨?_, rfl, fun hw => LogLevel.noConfusion hw⟩
    obtain ⟨dd, hdd1, hdd2⟩ : ∃ dd : FileData,
        lookupFS fs (final_dir ++ ["staging"] ++ [lastName p]) = some (.file dd) ∧
        dd.size = dsz := by
      unfold statSize at hst
      cases hl : lookupFS fs (final_dir ++ ["staging"] ++ [lastName p]) with
      | none => rw [hl] at hst; simp at hst
      | some e =>
        cases e with
        | file dd => rw [hl] at hst; simp at hst; exact ⟨dd, rfl, hst⟩
        | dir => rw [hl] at hst; simp at hst
    have hex1 : existsFS fs (final_dir ++ ["staging"] ++ [lastName p]) = true := by
      unfold existsFS
      rw [hdd1]
      rfl
    have hs1 : statSize fs p = some d.size := by
      unfold statSize
      rw [hlp]
    have hs2 : statSize fs (final_dir ++ ["staging"] ++ [lastName p]) =
        some dd.size := by
      unfold statSize
      rw [hdd1]
    have hne2 : ¬ d.size = dd.size := by rw [hdd2]; exact hne
    have hassoc : final_dir ++ ["staging"] ++ [lastName p] =
        final_dir ++ ["staging", lastName p] := by simp
    rw [hassoc] at hex1 hs2
    simp [copy_files_step, doCopy, hnx, hex1, hs1, hs2, hne2, hlp]

/-- Witness for the amended C6: a concrete dry-run duplicate is logged, and
a concrete stale-index size mismatch logs `Overwriting` and copies. -/
theorem C6_log_behavior_witness :
    copy_files [["s", "dup.wav"]] ["final"] true
        [(["final"], Entry.dir), (["final", "dup.wav"], Entry.file ⟨[5], 0, 0⟩),
         (["s", "dup.wav"], Entry.file ⟨[5, 5], 0, 0⟩)] =
      .ok ([(["final"], Entry.dir), (["final", "dup.wav"], Entry.file ⟨[5], 0, 0⟩),
            (["s", "dup.wav"], Entry.file ⟨[5, 5], 0, 0⟩)],
           [LogEvent.skippedFinal "dup.wav"]) ∧
    copy_files_step (["final"] ++ ["staging"]) [] false
        [(["final", "staging", "c.wav"], Entry.file ⟨[9], 0, 0⟩),
         (["s2", "c.wav"], Entry.file ⟨[9, 9], 0, 0⟩)] [] ["s2", "c.wav"] =
      .next (insertFS
              [(["final", "staging", "c.wav"], Entry.file ⟨[9], 0, 0⟩),
               (["s2", "c.wav"], Entry.file ⟨[9, 9], 0, 0⟩)]
              (["final"] ++ ["staging"] ++ ["c.wav"]) (.file ⟨[9, 9], 0, 0⟩))
        ([] ++ [LogEvent.overwriting "c.wav",
                LogEvent.copied "c.wav" (["final"] ++ ["staging"] ++ ["c.wav"])]) :=
  ⟨((C6_log_behavior ["s", "dup.wav"] ["final"] _).1 (by decide)).1,
   ((C6_log_behavior ["s2", "c.wav"] ["final"]
       [(["final", "staging", "c.wav"], Entry.file ⟨[9], 0, 0⟩),
        (["s2", "c.wav"], Entry.file ⟨[9, 9], 0, 0⟩)]).2
     [] [] ⟨[9, 9], 0, 0⟩ 1 (by simp) rfl rfl (by decide)).1⟩

/-! ### Claim C7 -/

/-- **C7**: a candidate that passes both duplicate checks is copied — full
record, i.e. bytes *and* metadata (mtime, mode) — to
`final_dir/staging/<original name>` (structure flattened to the file name),
with an informational `Copied` log entry; and a file named `notes.txt` is
never produced by the Scanner, so it is never considered. -/
theorem C7_copy_action (p : FPath) (final_dir : FPath) (fs : FS) (d : FileData) :
    (lastName p ∉ fileNamesUnder fs final_dir →
     lookupFS fs p = some (.file d) →
     existsFS fs (final_dir ++ ["staging"] ++ [lastName p]) = false →
     copy_files [p] final_dir false fs =
       .ok (insertFS (mkdirParents fs (final_dir ++ ["staging"]))
              (final_dir ++ ["staging"] ++ [lastName p]) (.file d),
            [LogEvent.copied (lastName p) (final_dir ++ ["staging"] ++ [lastName p])]) ∧
     (LogEvent.copied (lastName p)
        (final_dir ++ ["staging"] ++ [lastName p])).level = LogLevel.info) ∧
    (∀ source q : FPath, lastName q = "notes.txt" →
      q ∉ get_audio_files fs source audio_extensions) := by
  constructor
  · intro hnd hlp hdst
    refine ⟨?_, rfl⟩
    have hnd1 : lastName p ∉
        fileNamesUnder (mkdirParents fs (final_dir ++ ["staging"])) final_dir := by
      unfold mkdirParents
      rw [mem_fileNamesUnder_mkdirList]
      exact hnd
    have hdst1 : lookupFS (mkdirParents fs (final_dir ++ ["staging"]))
        (final_dir ++ ["staging"] ++ [lastName p]) = none := by
      rw [lookupFS_mkdirParents_longer fs _ _ (by simp)]
      unfold existsFS at hdst
      cases hl : lookupFS fs (final_dir ++ ["staging"] ++ [lastName p]) with
      | none => rfl
      | some e => rw [hl] at hdst; simp at hdst
    have hlp1 : lookupFS (mkdirParents fs (final_dir ++ ["staging"])) p =
        some (.file d) := by
      rw [lookupFS_mkdirParents_of_isSome fs _ p (by rw [hlp]; simp)]
      exact hlp
    have hex1 : existsFS (mkdirParents fs (final_dir ++ ["staging"]))
        (final_dir ++ ["staging"] ++ [lastName p]) = false := by
      unfold existsFS
      rw [hdst1]
      rfl
    rw [copy_files_real_def]
    simp only [copy_files_loop]
    have hassoc : final_dir ++ ["staging"] ++ [lastName p] =
        final_dir ++ ["staging", lastName p] := by simp
    rw [hassoc] at hex1
    simp [copy_files_step, doCopy, hnd1, hex1, hlp1]
  · intro source q hname hmem
    rw [mem_get_audio_files] at hmem
    obtain ⟨_, _, hsuf⟩ := hmem
    rw [hname] at hsuf
    exact absurd hsuf (by decide)

/-- Witness for C7: the spec's own scenario — `kick.wav` (10 bytes) plus
`notes.txt` in the source, empty destination. -/
theorem C7_copy_action_witness :
    copy_files [["splice", "kick.wav"]] ["destination"] false
        [(["splice"], Entry.dir),
         (["splice", "kick.wav"],
            Entry.file ⟨[0, 1, 2, 3, 4, 5, 6, 7, 8, 9], 7, 6⟩),
         (["splice", "notes.txt"], Entry.file ⟨[1], 0, 0⟩),
         (["destination"], Entry.dir)] =
      .ok (insertFS (mkdirParents
              [(["splice"], Entry.dir),
               (["splice", "kick.wav"],
                  Entry.file ⟨[0, 1, 2, 3, 4, 5, 6, 7, 8, 9], 7, 6⟩),
               (["splice", "notes.txt"], Entry.file ⟨[1], 0, 0⟩),
               (["destination"], Entry.dir)]
              (["destination"] ++ ["staging"]))
            (["destination"] ++ ["staging"] ++ ["kick.wav"])
            (.file ⟨[0, 1, 2, 3, 4, 5, 6, 7, 8, 9], 7, 6⟩),
           [LogEvent.copied "kick.wav"
              (["destination"] ++ ["staging"] ++ ["kick.wav"])]) ∧
    ["splice", "notes.txt"] ∉ get_audio_files
        [(["splice"], Entry.dir),
         (["splice", "kick.wav"],
            Entry.file ⟨[0, 1, 2, 3, 4, 5, 6, 7, 8, 9], 7, 6⟩),
         (["splice", "notes.txt"], Entry.file ⟨[1], 0, 0⟩),
         (["destination"], Entry.dir)] ["splice"] audio_extensions :=
  ⟨((C7_copy_action ["splice", "kick.wav"] ["destination"]
      [(["splice"], Entry.dir),
       (["splice", "kick.wav"],
          Entry.file ⟨[0, 1, 2, 3, 4, 5, 6, 7, 8, 9], 7, 6⟩),
       (["splice", "notes.txt"], Entry.file ⟨[1], 0, 0⟩),
       (["destination"], Entry.dir)]
      ⟨[0, 1, 2, 3, 4, 5, 6, 7, 8, 9], 7, 6⟩).1 (by decide) rfl rfl).1,
   (C7_copy_action ["splice", "kick.wav"] ["destination"]
      [(["splice"], Entry.dir),
       (["splice", "kick.wav"],
          Entry.file ⟨[0, 1, 2, 3, 4, 5, 6, 7, 8, 9], 7, 6⟩),
       (["splice", "notes.txt"], Entry.file ⟨[1], 0, 0⟩),
       (["destination"], Entry.dir)]
      ⟨[0, 1, 2, 3, 4, 5, 6, 7, 8, 9], 7, 6⟩).2
     ["splice"] ["splice", "notes.txt"] rfl⟩

/-! ### Claim C9 -/

/-- **C9 counterexample**: two distinct candidates with the same name
`a.wav`, same size 3, different content; the name is absent from the
destination.  The claim says both are copied with the later overwriting the
earlier; in fact the second is skipped by the in-loop staging size check
(sizes are equal), and the staging file keeps the *first* candidate's
content, with only one `Copied` event logged. -/
theorem C9_counterexample :
    copy_files [["s1", "a.wav"], ["s2", "a.wav"]] ["final"] false
        [(["final"], Entry.dir),
         (["s1", "a.wav"], Entry.file ⟨[1, 2, 3], 1, 1⟩),
         (["s2", "a.wav"], Entry.file ⟨[4, 5, 6], 2, 2⟩)] =
      .ok ([(["final", "staging", "a.wav"], Entry.file ⟨[1, 2, 3], 1, 1⟩),
            (["final", "staging"], Entry.dir),
            (["final"], Entry.dir),
            (["s1", "a.wav"], Entry.file ⟨[1, 2, 3], 1, 1⟩),
            (["s2", "a.wav"], Entry.file ⟨[4, 5, 6], 2, 2⟩)],
           [LogEvent.copied "a.wav" ["final", "staging", "a.wav"]]) ∧
    lookupFS [(["final", "staging", "a.wav"], Entry.file ⟨[1, 2, 3], 1, 1⟩),
            (["final", "staging"], Entry.dir),
            (["final"], Entry.dir),
            (["s1", "a.wav"], Entry.file ⟨[1, 2, 3], 1, 1⟩),
            (["s2", "a.wav"], Entry.file ⟨[4, 5, 6], 2, 2⟩)]
        ["final", "staging", "a.wav"] = some (Entry.file ⟨[1, 2, 3], 1, 1⟩) :=
  ⟨rfl, rfl⟩

/-- **C9 (amended)**: the index is computed once and never updated, so when
the two same-named distinct candidates have *different* sizes both are
copied to the same staging path with no duplicate skip — the later one
overwrites the earlier, logging only informational `Overwriting`/`Copied`
entries; with equal sizes the second is skipped silently by the staging
size check instead. -/
theorem C9_same_name_overwrite (p1 p2 : FPath) (final_dir : FPath) (fs : FS)
    (d1 d2 : FileData) (n : String)
    (h1 : lastName p1 = n) (h2 : lastName p2 = n)
    (hn : n ∉ fileNamesUnder fs final_dir)
    (hf1 : lookupFS fs p1 = some (.file d1))
    (hf2 : lookupFS fs p2 = some (.file d2))
    (hdst : existsFS fs (final_dir ++ ["staging", n]) = false)
    (hsz : d1.size ≠ d2.size) :
    copy_files [p1, p2] final_dir false fs =
      .ok (insertFS (insertFS (mkdirParents fs (final_dir ++ ["staging"]))
             (final_dir ++ ["staging", n]) (.file d1))
             (final_dir ++ ["staging", n]) (.file d2),
           [LogEvent.copied n (final_dir ++ ["staging", n]),
            LogEvent.overwriting n,
            LogEvent.copied n (final_dir ++ ["staging", n])]) := by
  have hn1 : n ∉
      fileNamesUnder (mkdirParents fs (final_dir ++ ["staging"])) final_dir := by
    unfold mkdirParents
    rw [mem_fileNamesUnder_mkdirList]
    exact hn
  have hdN : lookupFS (mkdirParents fs (final_dir ++ ["staging"]))
      (final_dir ++ ["staging", n]) = none := by
    rw [lookupFS_mkdirParents_longer fs _ _ (by simp)]
    unfold existsFS at hdst
    cases hl : lookupFS fs (final_dir ++ ["staging", n]) with
    | none => rfl
    | some e => rw [hl] at hdst; simp at hdst
  have hex1 : existsFS (mkdirParents fs (final_dir ++ ["staging"]))
      (final_dir ++ ["staging", n]) = false := by
    unfold existsFS
    rw [hdN]
    rfl
  have hp1 : lookupFS (mkdirParents fs (final_dir ++ ["staging"])) p1 =
      some (.file d1) := by
    rw [lookupFS_mkdirParents_of_isSome fs _ p1 (by rw [hf1]; simp)]
    exact hf1
  have hp2 : lookupFS (mkdirParents fs (final_dir ++ ["staging"])) p2 =
      some (.file d2) := by
    rw [lookupFS_mkdirParents_of_isSome fs _ p2 (by rw [hf2]; simp)]
    exact hf2
  have hne_p2 : final_dir ++ ["staging", n] ≠ p2 := by
    intro he
    unfold existsFS at hdst
    rw [he, hf2] at hdst
    simp at hdst
  have hstep1 : copy_files_step (final_dir ++ ["staging"])
      (fileNamesUnder (mkdirParents fs (final_dir ++ ["staging"])) final_dir) false
      (mkdirParents fs (final_dir ++ ["staging"])) [] p1 =
      .next (insertFS (mkdirParents fs (final_dir ++ ["staging"]))
               (final_dir ++ ["staging", n]) (.file d1))
        [LogEvent.copied n (final_dir ++ ["staging", n])] := by
    simp [copy_files_step, doCopy, h1, hn1, hex1, hp1]
  have hq2 : lookupFS (insertFS (mkdirParents fs (final_dir ++ ["staging"]))
      (final_dir ++ ["staging", n]) (.file d1)) p2 = some (.file d2) := by
    rw [lookupFS_insertFS, if_neg hne_p2]
    exact hp2
  have hex2 : existsFS (insertFS (mkdirParents fs (final_dir ++ ["staging"]))
      (final_dir ++ ["staging", n]) (.file d1)) (final_dir ++ ["staging", n]) = true := by
    unfold existsFS
    rw [lookupFS_insertFS, if_pos rfl]
    rfl
  have hs2a : statSize (insertFS (mkdirParents fs (final_dir ++ ["staging"]))
      (final_dir ++ ["staging", n]) (.file d1)) p2 = some d2.size := by
    unfold statSize
    rw [hq2]
  have hs2b : statSize (insertFS (mkdirParents fs (final_dir ++ ["staging"]))
      (final_dir ++ ["staging", n]) (.file d1)) (final_dir ++ ["staging", n]) =
      some d1.size := by
    unfold statSize
    rw [lookupFS_insertFS, if_pos rfl]
  have hne2 : ¬ d2.size = d1.size := fun hh => hsz hh.symm
  have hstep2 : copy_files_step (final_dir ++ ["staging"])
      (fileNamesUnder (mkdirParents fs (final_dir ++ ["staging"])) final_dir) false
      (insertFS (mkdirParents fs (final_dir ++ ["staging"]))
        (final_dir ++ ["staging", n]) (.file d1))
      [LogEvent.copied n (final_dir ++ ["staging", n])] p2 =
      .next (insertFS (insertFS (mkdirParents fs (final_dir ++ ["staging"]))
               (final_dir ++ ["staging", n]) (.file d1))
               (final_dir ++ ["staging", n]) (.file d2))
        [LogEvent.copied n (final_dir ++ ["staging", n]),
         LogEvent.overwriting n,
         LogEvent.copied n (final_dir ++ ["staging", n])] := by
    simp [copy_files_step, doCopy, h2, hn1, hex2, hs2a, hs2b, hne2, hq2]
  rw [copy_files_real_def]
  simp only [copy_files_loop]
  rw [hstep1]
  simp only []
  rw [hstep2]

/-- Witness for the amended C9: concrete same-named candidates of sizes 1
and 2 both get copied, the later overwriting the earlier. -/
theorem C9_same_name_overwrite_witness :
    copy_files [["s1", "d.wav"], ["s2", "d.wav"]] ["final"] false
        [(["final"], Entry.dir),
         (["s1", "d.wav"], Entry.file ⟨[1], 0, 0⟩),
         (["s2", "d.wav"], Entry.file ⟨[2, 2], 0, 0⟩)] =
      .ok (insertFS (insertFS (mkdirParents
              [(["final"], Entry.dir),
               (["s1", "d.wav"], Entry.file ⟨[1], 0, 0⟩),
               (["s2", "d.wav"], Entry.file ⟨[2, 2], 0, 0⟩)]
              (["final"] ++ ["staging"]))
             (["final"] ++ ["staging", "d.wav"]) (.file ⟨[1], 0, 0⟩))
             (["final"] ++ ["staging", "d.wav"]) (.file ⟨[2, 2], 0, 0⟩),
           [LogEvent.copied "d.wav" (["final"] ++ ["staging", "d.wav"]),
            LogEvent.overwriting "d.wav",
            LogEvent.copied "d.wav" (["final"] ++ ["staging", "d.wav"])]) :=
  C9_same_name_overwrite ["s1", "d.wav"] ["s2", "d.wav"] ["final"]
    [(["final"], Entry.dir),
     (["s1", "d.wav"], Entry.file ⟨[1], 0, 0⟩),
     (["s2", "d.wav"], Entry.file ⟨[2, 2], 0, 0⟩)]
    ⟨[1], 0, 0⟩ ⟨[2, 2], 0, 0⟩ "d.wav"
    rfl rfl (by decide) rfl rfl rfl (by decide)

/-! ### Claim C5 -/

/-- **C5**: idempotence of the real copy step.  After a successful run,
running again with the same candidate list and destination does nothing at
all: every candidate — in particular every file copied by the first run —
is skipped, the filesystem is unchanged and nothing is logged. -/
theorem C5_second_run_skips (L : List FPath) (final_dir : FPath) (fs fs1 : FS)
    (log1 : List LogEvent)
    (h : copy_files L final_dir false fs = .ok (fs1, log1)) :
    copy_files L final_dir false fs1 = .ok (fs1, []) := by
  rw [copy_files_real_def] at h
  rw [copy_files_real_def]
  have hpre : ∀ q ∈ pathPrefixes (final_dir ++ ["staging"]), existsFS fs1 q = true := by
    intro q hq
    have hq1 : existsFS (mkdirParents fs (final_dir ++ ["staging"])) q = true :=
      existsFS_mkdirList _ fs q hq
    exact copy_files_loop_isSome_preserve _ _ false L _ [] fs1 log1 h q hq1
  have hmk : mkdirParents fs1 (final_dir ++ ["staging"]) = fs1 :=
    mkdirList_eq_self _ fs1 hpre
  rw [hmk]
  apply copy_files_loop_skip_all
  intro fp hfp
  rcases copy_files_loop_coverage _ _ L _ [] fs1 log1 h fp hfp with hc | hc
  · rw [mem_fileNamesUnder] at hc ⊢
    obtain ⟨q, hu, hfile, hname⟩ := hc
    exact ⟨q, hu, copy_files_loop_isFile_preserve _ _ false L _ [] fs1 log1 h q hfile,
      hname⟩
  · rw [mem_fileNamesUnder]
    refine ⟨final_dir ++ ["staging"] ++ [lastName fp], ?_, hc, lastName_concat _ _⟩
    rw [List.append_assoc]
    exact strictUnder_append final_dir _ (by simp)

/-- Witness for C5: a concrete first run copies `w.wav`; the second run over
the resulting filesystem returns it unchanged with an empty log. -/
theorem C5_second_run_skips_witness :
    copy_files [["sp", "w.wav"]] ["final"] false
        [(["final", "staging", "w.wav"], Entry.file ⟨[3], 0, 0⟩),
         (["final", "staging"], Entry.dir),
         (["final"], Entry.dir),
         (["sp", "w.wav"], Entry.file ⟨[3], 0, 0⟩)] =
      .ok ([(["final", "staging", "w.wav"], Entry.file ⟨[3], 0, 0⟩),
            (["final", "staging"], Entry.dir),
            (["final"], Entry.dir),
            (["sp", "w.wav"], Entry.file ⟨[3], 0, 0⟩)], []) :=
  C5_second_run_skips [["sp", "w.wav"]] ["final"]
    [(["final"], Entry.dir), (["sp", "w.wav"], Entry.file ⟨[3], 0, 0⟩)]
    [(["final", "staging", "w.wav"], Entry.file ⟨[3], 0, 0⟩),
     (["final", "staging"], Entry.dir),
     (["final"], Entry.dir),
     (["sp", "w.wav"], Entry.file ⟨[3], 0, 0⟩)]
    [LogEvent.copied "w.wav" ["final", "staging", "w.wav"]] rfl

/-! ### Claim C10 -/

/-- **C10**: frame property of a real `copy_files` run.  Every path whose
entry changed is either a directory created on the chain down to the staging
subfolder (only where nothing existed), or the staging path of some
candidate's name, now holding a regular file.  In particular every file
outside staging, and every staging file whose name is no candidate's, is
untouched. -/
theorem C10_only_staging_writes (L : List FPath) (final_dir : FPath)
    (fs fs1 : FS) (log : List LogEvent)
    (h : copy_files L final_dir false fs = .ok (fs1, log)) (q : FPath)
    (hq : lookupFS fs1 q ≠ lookupFS fs q) :
    (q ∈ pathPrefixes (final_dir ++ ["staging"]) ∧ lookupFS fs q = none ∧
      lookupFS fs1 q = some Entry.dir) ∨
    (∃ fp ∈ L, q = final_dir ++ ["staging"] ++ [lastName fp] ∧
      isFileFS fs1 q = true) := by
  rw [copy_files_real_def] at h
  by_cases hc : lookupFS fs1 q =
      lookupFS (mkdirParents fs (final_dir ++ ["staging"])) q
  · have hch : lookupFS (mkdirParents fs (final_dir ++ ["staging"])) q ≠
        lookupFS fs q := by
      rw [← hc]; exact hq
    obtain ⟨hmem, hnone, hdir⟩ := lookupFS_mkdirList_changed _ fs q hch
    exact Or.inl ⟨hmem, hnone, by rw [hc]; exact hdir⟩
  · obtain ⟨fp, hmem, _, heq, hfile⟩ :=
      copy_files_loop_frame _ _ false L _ [] fs1 log h q hc
    exact Or.inr ⟨fp, hmem, heq, hfile⟩

/-- Witness for C10 at a concrete run and the one path that changed to a
file: the staging path of the candidate's name. -/
theorem C10_only_staging_writes_witness :
    (["final", "staging", "z.wav"] ∈ pathPrefixes (["final"] ++ ["staging"]) ∧
      lookupFS [(["final"], Entry.dir), (["sp", "z.wav"], Entry.file ⟨[4, 4], 1, 2⟩)]
        ["final", "staging", "z.wav"] = none ∧
      lookupFS [(["final", "staging", "z.wav"], Entry.file ⟨[4, 4], 1, 2⟩),
                (["final", "staging"], Entry.dir),
                (["final"], Entry.dir),
                (["sp", "z.wav"], Entry.file ⟨[4, 4], 1, 2⟩)]
        ["final", "staging", "z.wav"] = some Entry.dir) ∨
    (∃ fp ∈ [["sp", "z.wav"]],
      ["final", "staging", "z.wav"] = ["final"] ++ ["staging"] ++ [lastName fp] ∧
      isFileFS [(["final", "staging", "z.wav"], Entry.file ⟨[4, 4], 1, 2⟩),
                (["final", "staging"], Entry.dir),
                (["final"], Entry.dir),
                (["sp", "z.wav"], Entry.file ⟨[4, 4], 1, 2⟩)]
        ["final", "staging", "z.wav"] = true) :=
  C10_only_staging_writes [["sp", "z.wav"]] ["final"]
    [(["final"], Entry.dir), (["sp", "z.wav"], Entry.file ⟨[4, 4], 1, 2⟩)]
    [(["final", "staging", "z.wav"], Entry.file ⟨[4, 4], 1, 2⟩),
     (["final", "staging"], Entry.dir),
     (["final"], Entry.dir),
     (["sp", "z.wav"], Entry.file ⟨[4, 4], 1, 2⟩)]
    [LogEvent.copied "z.wav" ["final", "staging", "z.wav"]] rfl
    ["final", "staging", "z.wav"] (by decide)
